import Mathlib

/-!
# Verification of the RemoveBackground path/error logic

Shallow embedding of `src/removebg/core.py` (`remove_background`) and
`src/removebg/cli.py` (`main`).  The identical twin copies `src/removebg.py`
and `src/cli.py` contain the same logic.

The program validates an input path, derives/normalizes an output path with
Python `pathlib` (POSIX flavour), delegates the actual background removal to
the external `rembg` collaborator, and maps exceptions to CLI exit codes.
We model:

* `pathlib.PurePosixPath` string parsing, `name`, `stem`, `suffix`, `parent`,
  the `/` join operator and `with_suffix` — faithfully to CPython's
  implementation (a path is parsed by splitting on `/` and dropping empty
  and `"."` components; `suffix` is the part of the final component from its
  last dot, provided that dot is neither the first nor the last character;
  `with_suffix` raises `ValueError` when the final component is empty).
  The rare POSIX `//` double-slash root is modelled as the ordinary root.
* the filesystem as an abstract lookup from parsed paths to entries
  (regular file / directory / other existing entry), giving `exists()` and
  `is_file()`;
* the read → rembg-remove → decode → save pipeline inside the `try:` block
  by an oracle saying at which stage, if any, it raises and with which
  exception; Python exceptions are `FileNotFoundError`, `ValueError`, or any
  other `Exception` subclass, each carrying its `str()` message;
* the file-handle side effects (which files the run opens for reading or
  writing) as an explicit effect list, to state the no-output-on-error
  properties.
-/

/-! ## Characters and ASCII lowering

`str.lower()` as used in `output_file.suffix.lower() != '.png'`.
Only ASCII letters matter for a comparison against the ASCII literal
`'.png'` (no non-ASCII character lowercases to an ASCII letter), so we model
ASCII lowering. -/

def lowerChar (c : Char) : Char :=
  if 'A' ≤ c ∧ c ≤ 'Z' then Char.ofNat (c.toNat + 32) else c

def lowerStr (cs : List Char) : List Char := cs.map lowerChar

/-! ## PurePosixPath -/

/-- A parsed POSIX path: whether it is absolute, and its non-empty,
non-`"."`, slash-free components, as `pathlib` stores them. -/
structure PurePath where
  absolute : Bool
  parts : List (List Char)
deriving Repr, DecidableEq

/-- Split a character list on `/`, like Python's `str.split('/')`. -/
def splitSlash : List Char → List (List Char)
  | [] => [[]]
  | c :: cs =>
    if c = '/' then [] :: splitSlash cs
    else
      match splitSlash cs with
      | [] => [[c]]
      | p :: ps => (c :: p) :: ps

/-- Join components with `/`, like `'/'.join(...)`. -/
def joinSlash : List (List Char) → List Char
  | [] => []
  | [p] => p
  | p :: ps => p ++ '/' :: joinSlash ps

/-- Parsing of a path string, as `pathlib` does it (POSIX flavour): absolute iff the
string starts with `/`; components are the slash-separated pieces with empty
and `"."` pieces dropped. -/
def parsePath (s : String) : PurePath :=
  { absolute := s.toList.head? = some '/',
    parts := (splitSlash s.toList).filter (fun p => p ≠ [] ∧ p ≠ ['.']) }

/-- Printing of a parsed path, as `str()` does it: slash-prefixed join when absolute, the dot string for the
empty relative path, the plain join otherwise. -/
def PurePath.str (p : PurePath) : String :=
  if p.absolute then String.mk ('/' :: joinSlash p.parts)
  else if p.parts = [] then (".")
  else String.mk (joinSlash p.parts)

/-- The `name` property: the final component, empty when there is none. -/
def PurePath.name (p : PurePath) : List Char := (p.parts.getLast?).getD []

/-- The `parent` property: drop the final component. -/
def PurePath.parent (p : PurePath) : PurePath :=
  { absolute := p.absolute, parts := p.parts.dropLast }

/-- The `/` operator `p / s` of `pathlib`: parse the right operand; if it is
absolute it wins, otherwise its parts are appended. -/
def PurePath.join (p : PurePath) (s : String) : PurePath :=
  if (parsePath s).absolute then parsePath s
  else { absolute := p.absolute, parts := p.parts ++ (parsePath s).parts }

/-- Is a character different from the dot? -/
def notDot (c : Char) : Bool := c ≠ '.'

/-- Split a final component into `(stem, suffix)` following `pathlib`:
with `i = name.rfind('.')`, the suffix is `name[i:]` when
`0 < i < len(name) - 1` and empty otherwise.  We search for the last dot
from the reversed name: the characters before the first dot of the reversal
are the extension, the characters after it the stem. -/
def splitName (n : List Char) : List Char × List Char :=
  match List.dropWhile notDot n.reverse with
  | [] => (n, [])
  | _ :: revStem =>
    if List.takeWhile notDot n.reverse = [] ∨ revStem = [] then (n, [])
    else (revStem.reverse, '.' :: (List.takeWhile notDot n.reverse).reverse)

def nameStem (n : List Char) : List Char := (splitName n).1

def nameSuffix (n : List Char) : List Char := (splitName n).2

/-- The `suffix` property of a path. -/
def PurePath.suffix (p : PurePath) : List Char := nameSuffix p.name

/-- The `stem` property of a path. -/
def PurePath.stem (p : PurePath) : List Char := nameStem p.name

/-- Suffix replacement, as `p.with_suffix('.png')` does it: raises `ValueError` when the final component is
empty; otherwise replaces the suffix (or appends `.png` when there is no
suffix). The error value carries the `ValueError` message. -/
def withSuffixPng (p : PurePath) : Except String PurePath :=
  if p.name = [] then
    .error ("PurePosixPath('" ++ p.str ++ "') has an empty name")
  else if nameSuffix p.name = [] then
    .ok { absolute := p.absolute,
          parts := p.parts.dropLast ++ [p.name ++ ".png".toList] }
  else
    .ok { absolute := p.absolute,
          parts := p.parts.dropLast ++ [nameStem p.name ++ ".png".toList] }

/-! ## Filesystem, exceptions, processing oracle -/

/-- What an existing path can be: a regular file, a directory, or some other
entry (device, fifo, ...). -/
inductive Entry
  | file
  | dir
  | other
deriving Repr, DecidableEq

/-- The filesystem as seen by `Path.exists()` / `Path.is_file()`: a lookup
from parsed paths to entries, `none` meaning the path does not exist. -/
structure FileSystem where
  lookup : PurePath → Option Entry

/-- A Python exception (an `Exception` subclass) with its `str()` message. -/
inductive PyExc
  | fileNotFoundError (msg : String)
  | valueError (msg : String)
  | other (msg : String)
deriving Repr, DecidableEq

/-- The message `str(e)` of an exception. -/
def PyExc.msgOf : PyExc → String
  | .fileNotFoundError m => m
  | .valueError m => m
  | .other m => m

/-- Outcome oracle for the body of the `try:` block: at which of the four
stages (read the input bytes, `rembg.remove`, `Image.open` decode,
`Image.save`) an exception is raised, if any, and which exception. -/
inductive ProcOutcome
  | readFail (e : PyExc)
  | removeFail (e : PyExc)
  | decodeFail (e : PyExc)
  | saveFail (e : PyExc)
  | success
deriving Repr, DecidableEq

/-- The exception raised inside the `try:` body, when one is. -/
def ProcOutcome.failure : ProcOutcome → Option PyExc
  | .readFail e => some e
  | .removeFail e => some e
  | .decodeFail e => some e
  | .saveFail e => some e
  | .success => none

/-- A file-handle side effect of a run. -/
inductive Effect
  | readFile (path : String)
  | writeFile (path : String)
deriving Repr, DecidableEq

/-! ## remove_background -/

/-- Output-path resolution of `remove_background` (core.py lines 70–76):
default `<parent>/<stem>_nobg.png` when no output path is given; otherwise
pass the string through when its suffix already lowercases to `.png`, else
`with_suffix('.png')` (whose `ValueError` on an empty final component
propagates, uncaught, out of `remove_background`). -/
def resolveOutput (input_path : String) : Option String → Except String String
  | none =>
    .ok ((parsePath input_path).parent.join
          (String.mk (parsePath input_path).stem ++ "_nobg.png")).str
  | some op =>
    if lowerStr (parsePath op).suffix = ".png".toList then .ok op
    else (withSuffixPng (parsePath op)).map PurePath.str

/-- Result of a `remove_background` call: either the returned output path or
the raised exception, together with the file-handle effects performed. -/
structure RBRun where
  result : Except PyExc String
  effects : List Effect
deriving Repr

/-- The function `remove_background(input_path, output_path)` of `core.py`:
validate existence then regular-file-ness, resolve the output path, then run
the read/remove/decode/save pipeline, wrapping any exception it raises into
`ValueError("Failed to process image: " + str(e))`. -/
def remove_background (fs : FileSystem) (proc : ProcOutcome)
    (input_path : String) (output_path : Option String) : RBRun :=
  if (fs.lookup (parsePath input_path)).isNone then
    { result := .error (.fileNotFoundError ("Input file not found: " ++ input_path)),
      effects := [] }
  else if fs.lookup (parsePath input_path) ≠ some .file then
    { result := .error (.valueError ("Input path is not a file: " ++ input_path)),
      effects := [] }
  else
    match resolveOutput input_path output_path with
    | .error m => { result := .error (.valueError m), effects := [] }
    | .ok out =>
      match proc with
      | .readFail e =>
        { result := .error (.valueError ("Failed to process image: " ++ e.msgOf)),
          effects := [] }
      | .removeFail e =>
        { result := .error (.valueError ("Failed to process image: " ++ e.msgOf)),
          effects := [.readFile input_path] }
      | .decodeFail e =>
        { result := .error (.valueError ("Failed to process image: " ++ e.msgOf)),
          effects := [.readFile input_path] }
      | .saveFail e =>
        { result := .error (.valueError ("Failed to process image: " ++ e.msgOf)),
          effects := [.readFile input_path, .writeFile out] }
      | .success =>
        { result := .ok out,
          effects := [.readFile input_path, .writeFile out] }

/-! ## CLI -/

/-- The `try/except` ladder of `cli.py` `main`: 0 on success, 1 on
`FileNotFoundError`, 2 on `ValueError`, 3 on any other exception. -/
def mainExitCode : Except PyExc String → Nat
  | .ok _ => 0
  | .error (.fileNotFoundError _) => 1
  | .error (.valueError _) => 2
  | .error (.other _) => 3

/-- The function `main` of `cli.py`, as the exit code of running `remove_background` on
the parsed arguments under the given filesystem and processing oracle. -/
def cliMain (fs : FileSystem) (proc : ProcOutcome)
    (input : String) (output : Option String) : Nat :=
  mainExitCode (remove_background fs proc input output).result

/-! ## Lemmas about splitting and joining on slashes -/

theorem splitSlash_ne_nil (cs : List Char) : splitSlash cs ≠ [] := by
  cases cs with
  | nil => simp [splitSlash]
  | cons c cs =>
    simp only [splitSlash]
    split
    · simp
    · split <;> simp

theorem no_slash_of_mem_splitSlash {cs q : List Char}
    (hq : q ∈ splitSlash cs) : '/' ∉ q := by
  induction cs generalizing q with
  | nil =>
    simp only [splitSlash, List.mem_singleton] at hq
    simp [hq]
  | cons c cs ih =>
    simp only [splitSlash] at hq
    by_cases hc : c = '/'
    · rw [if_pos hc] at hq
      rcases List.mem_cons.mp hq with h | h
      · simp [h]
      · exact ih h
    · rw [if_neg hc] at hq
      rcases hss : splitSlash cs with _ | ⟨p, ps⟩
      · exact absurd hss (splitSlash_ne_nil cs)
      · rw [hss] at hq
        rcases List.mem_cons.mp hq with h | h
        · subst h
          intro hmem
          rcases List.mem_cons.mp hmem with h' | h'
          · exact hc h'.symm
          · exact ih (hss ▸ List.mem_cons_self p ps) h'
        · exact ih (hss ▸ List.mem_cons_of_mem p h)

theorem splitSlash_eq_single {cs : List Char} (h : '/' ∉ cs) :
    splitSlash cs = [cs] := by
  induction cs with
  | nil => rfl
  | cons c cs ih =>
    have hc : ¬ c = '/' := fun hc => h (hc ▸ List.mem_cons_self c cs)
    simp only [splitSlash, if_neg hc,
      ih (fun hm => h (List.mem_cons_of_mem c hm))]

theorem splitSlash_append {p : List Char} (t : List Char) (hp : '/' ∉ p) :
    splitSlash (p ++ '/' :: t) = p :: splitSlash t := by
  induction p with
  | nil => simp [splitSlash]
  | cons c cs ih =>
    have hc : ¬ c = '/' := fun hc => hp (hc ▸ List.mem_cons_self c cs)
    rw [List.cons_append]
    simp only [splitSlash, if_neg hc,
      ih (fun hm => hp (List.mem_cons_of_mem c hm))]

theorem splitSlash_joinSlash {parts : List (List Char)} (hne : parts ≠ [])
    (h : ∀ p ∈ parts, '/' ∉ p) : splitSlash (joinSlash parts) = parts := by
  induction parts with
  | nil => exact absurd rfl hne
  | cons p ps ih =>
    cases ps with
    | nil => exact splitSlash_eq_single (h p (List.mem_cons_self p []))
    | cons q qs =>
      rw [show joinSlash (p :: q :: qs) = p ++ '/' :: joinSlash (q :: qs) from rfl,
        splitSlash_append _ (h p (List.mem_cons_self p (q :: qs))),
        ih (by simp) (fun r hr => h r (List.mem_cons_of_mem p hr))]

theorem joinSlash_head {p : List Char} {ps : List (List Char)} (hp : p ≠ []) :
    (joinSlash (p :: ps)).head? = p.head? := by
  cases ps with
  | nil => rfl
  | cons q qs =>
    cases p with
    | nil => exact absurd rfl hp
    | cons a as => rfl

/-! ## Lemmas about stems and suffixes -/

theorem nameSuffix_concat_png {x : List Char} (hx : x ≠ []) :
    nameSuffix (x ++ ".png".toList) = ".png".toList := by
  have h1 : (x ++ ".png".toList).reverse = 'g' :: 'n' :: 'p' :: '.' :: x.reverse := by
    rw [show (".png".toList : List Char) = ['.', 'p', 'n', 'g'] from rfl,
      List.reverse_append]
    rfl
  have hrs : x.reverse ≠ [] := fun hc => hx (List.reverse_eq_nil_iff.mp hc)
  simp only [nameSuffix, splitName, h1]
  simp [List.takeWhile_cons, List.dropWhile_cons, notDot, hrs]

/-- Characterization of `splitName`: either the name has no suffix and the
stem is the whole name, or the name splits as `stem ++ "." ++ ext` with a
non-empty stem and a non-empty dot-free extension. -/
theorem splitName_spec (n : List Char) :
    (nameStem n = n ∧ nameSuffix n = []) ∨
    (∃ st ext, n = st ++ '.' :: ext ∧ st ≠ [] ∧ ext ≠ [] ∧ '.' ∉ ext ∧
      nameStem n = st ∧ nameSuffix n = '.' :: ext) := by
  unfold nameStem nameSuffix splitName
  rcases hd : List.dropWhile notDot n.reverse with _ | ⟨d, revStem⟩
  · left
    exact ⟨rfl, rfl⟩
  · by_cases hc : List.takeWhile notDot n.reverse = [] ∨ revStem = []
    · left
      show (if List.takeWhile notDot n.reverse = [] ∨ revStem = [] then (n, [])
          else (revStem.reverse, '.' :: (List.takeWhile notDot n.reverse).reverse)).1 = n ∧
        (if List.takeWhile notDot n.reverse = [] ∨ revStem = [] then (n, [])
          else (revStem.reverse, '.' :: (List.takeWhile notDot n.reverse).reverse)).2 = []
      rw [if_pos hc]
      exact ⟨rfl, rfl⟩
    · right
      push_neg at hc
      have hdot : d = '.' := by
        have h0 : 0 < (List.dropWhile notDot n.reverse).length := by
          rw [hd]; simp
        have h1 := List.dropWhile_get_zero_not notDot n.reverse h0
        rw [List.get_of_eq hd] at h1
        simp only [List.get] at h1
        simpa [notDot] using h1
      subst hdot
      have hsplit : List.takeWhile notDot n.reverse ++ ('.' :: revStem) = n.reverse := by
        rw [← hd]
        exact List.takeWhile_append_dropWhile notDot n.reverse
      refine ⟨revStem.reverse, (List.takeWhile notDot n.reverse).reverse,
        ?_, ?_, ?_, ?_, ?_, ?_⟩
      · have h2 := congrArg List.reverse hsplit
        simp only [List.reverse_append, List.reverse_cons, List.reverse_reverse,
          List.append_assoc] at h2
        exact h2.symm
      · simp [hc.2]
      · simp [hc.1]
      · intro hmem
        have h3 := List.mem_takeWhile_imp (List.mem_reverse.mp hmem)
        simp [notDot] at h3
      · show (if List.takeWhile notDot n.reverse = [] ∨ revStem = [] then (n, [])
          else (revStem.reverse, '.' :: (List.takeWhile notDot n.reverse).reverse)).1
            = revStem.reverse
        rw [if_neg (by push_neg; exact hc)]
      · show (if List.takeWhile notDot n.reverse = [] ∨ revStem = [] then (n, [])
          else (revStem.reverse, '.' :: (List.takeWhile notDot n.reverse).reverse)).2
            = '.' :: (List.takeWhile notDot n.reverse).reverse
        rw [if_neg (by push_neg; exact hc)]

theorem nameStem_ne_nil {n : List Char} (h : nameSuffix n ≠ []) :
    nameStem n ≠ [] := by
  rcases splitName_spec n with ⟨_, h2⟩ | ⟨st, ext, _, hst, _, _, hstem, _⟩
  · exact absurd h2 h
  · rw [hstem]
    exact hst

theorem nameStem_no_slash {n : List Char} (h : '/' ∉ n) : '/' ∉ nameStem n := by
  rcases splitName_spec n with ⟨h1, _⟩ | ⟨st, ext, hn, _, _, _, hstem, _⟩
  · rw [h1]
    exact h
  · rw [hstem]
    intro hmem
    exact h (hn ▸ List.mem_append_left _ hmem)

/-! ## Well-formedness of parsed components -/

/-- The invariant `pathlib` keeps on stored components: non-empty, not the
`"."` component, and slash-free. -/
def GoodPart (q : List Char) : Prop := q ≠ [] ∧ q ≠ ['.'] ∧ '/' ∉ q

theorem parsePath_parts_good (s : String) :
    ∀ q ∈ (parsePath s).parts, GoodPart q := by
  intro q hq
  simp only [parsePath] at hq
  have h1 := List.of_mem_filter hq
  simp only [decide_eq_true_eq] at h1
  exact ⟨h1.1, h1.2, no_slash_of_mem_splitSlash (List.mem_of_mem_filter hq)⟩

theorem PurePath.extEq {p q : PurePath} (h1 : p.absolute = q.absolute)
    (h2 : p.parts = q.parts) : p = q := by
  cases p; cases q; simp_all

theorem parsePath_str {p : PurePath} (h : ∀ q ∈ p.parts, GoodPart q) :
    parsePath p.str = p := by
  obtain ⟨abs, parts⟩ := p
  rcases hps : parts with _ | ⟨p0, ps0⟩
  · subst hps
    cases abs <;> rfl
  · subst hps
    have hfilter : List.filter (fun q => decide (q ≠ [] ∧ q ≠ ['.'])) (p0 :: ps0)
        = p0 :: ps0 :=
      List.filter_eq_self.mpr (fun q hq =>
        decide_eq_true ⟨(h q hq).1, (h q hq).2.1⟩)
    have hp0 : p0 ≠ [] := (h p0 (List.mem_cons_self p0 ps0)).1
    have hjoin : splitSlash (joinSlash (p0 :: ps0)) = p0 :: ps0 :=
      splitSlash_joinSlash (by simp) (fun r hr => (h r hr).2.2)
    have hhead : ∀ a, (joinSlash (p0 :: ps0)).head? = some a → a ≠ '/' := by
      intro a ha hcontra
      rw [joinSlash_head hp0] at ha
      subst hcontra
      exact (h p0 (List.mem_cons_self p0 ps0)).2.2
        (List.mem_of_mem_head? ha)
    cases abs with
    | true =>
      rw [show PurePath.str ⟨true, p0 :: ps0⟩
          = String.mk ('/' :: joinSlash (p0 :: ps0)) from rfl]
      refine PurePath.extEq ?_ ?_
      · rfl
      · simp only [parsePath]
        rw [show (String.mk ('/' :: joinSlash (p0 :: ps0))).toList
            = '/' :: joinSlash (p0 :: ps0) from rfl]
        rw [show splitSlash ('/' :: joinSlash (p0 :: ps0))
            = [] :: splitSlash (joinSlash (p0 :: ps0)) from by simp [splitSlash]]
        rw [hjoin, List.filter_cons, if_neg (by simp)]
        exact hfilter
    | false =>
      rw [show PurePath.str ⟨false, p0 :: ps0⟩
          = String.mk (joinSlash (p0 :: ps0)) from rfl]
      refine PurePath.extEq ?_ ?_
      · simp only [parsePath]
        rw [show (String.mk (joinSlash (p0 :: ps0))).toList
            = joinSlash (p0 :: ps0) from rfl]
        rcases hh : (joinSlash (p0 :: ps0)).head? with _ | a
        · simp
        · simp [hhead a hh]
      · simp only [parsePath]
        rw [show (String.mk (joinSlash (p0 :: ps0))).toList
            = joinSlash (p0 :: ps0) from rfl]
        rw [hjoin]
        exact hfilter

theorem name_nil_iff {p : PurePath} (h : ∀ q ∈ p.parts, GoodPart q) :
    p.name = [] ↔ p.parts = [] := by
  rcases hps : p.parts with _ | ⟨q, qs⟩
  · simp [PurePath.name, hps]
  · simp only [PurePath.name, hps]
    rcases hl : (q :: qs).getLast? with _ | r
    · simp at hl
    · have hr : r ∈ q :: qs := List.mem_of_mem_getLast? hl
      have hne := (h r (hps ▸ hr)).1
      simp [hne, hps]

theorem name_no_slash {p : PurePath} (h : ∀ q ∈ p.parts, GoodPart q) :
    '/' ∉ p.name := by
  rcases hl : p.parts.getLast? with _ | q
  · simp [PurePath.name, hl]
  · have hq : q ∈ p.parts := List.mem_of_mem_getLast? hl
    simp only [PurePath.name, hl, Option.getD_some]
    exact (h q hq).2.2

/-! ## Output path resolution lemmas -/

theorem parsePath_mk_single {x : List Char} (hx1 : x ≠ []) (hx2 : x ≠ ['.'])
    (hx3 : '/' ∉ x) : parsePath (String.mk x) = ⟨false, [x]⟩ := by
  refine PurePath.extEq ?_ ?_
  · simp only [parsePath]
    rcases hh : (String.mk x).toList.head? with _ | a
    · simp [hh]
    · have ha : a ≠ '/' := fun hc =>
        hx3 (hc ▸ List.mem_of_mem_head? (hh : x.head? = some a))
      simp [hh, ha]
  · simp only [parsePath]
    rw [show (String.mk x).toList = x from rfl, splitSlash_eq_single hx3]
    simp [List.filter_cons, hx1, hx2]

theorem resolveOutput_none (inp : String) :
    resolveOutput inp none = .ok (PurePath.str
      { absolute := (parsePath inp).absolute,
        parts := (parsePath inp).parts.dropLast
          ++ [(parsePath inp).stem ++ "_nobg.png".toList] }) := by
  have hstem_ns : '/' ∉ (parsePath inp).stem :=
    nameStem_no_slash (name_no_slash (parsePath_parts_good inp))
  have hx3 : '/' ∉ (parsePath inp).stem ++ "_nobg.png".toList := by
    intro hmem
    rcases List.mem_append.mp hmem with h | h
    · exact hstem_ns h
    · simp at h
  have hx1 : (parsePath inp).stem ++ "_nobg.png".toList ≠ [] := by simp
  have hx2 : (parsePath inp).stem ++ "_nobg.png".toList ≠ ['.'] := by
    intro hc
    have hl := congrArg List.length hc
    simp [List.length_append] at hl
  have hs : String.mk ((parsePath inp).stem) ++ "_nobg.png"
      = String.mk ((parsePath inp).stem ++ "_nobg.png".toList) := rfl
  simp only [resolveOutput, PurePath.join, PurePath.parent, hs,
    parsePath_mk_single hx1 hx2 hx3]
  rfl

/-- Any path printed from well-formed directory components plus a final
component of the shape `y ++ ".png"` parses back to a path whose suffix is
exactly `.png`. -/
theorem suffix_of_built_path {abs : Bool} {ps : List (List Char)} {y : List Char}
    (hps : ∀ q ∈ ps, GoodPart q) (hy : y ≠ []) (hsl : '/' ∉ y) :
    (parsePath (PurePath.str ⟨abs, ps ++ [y ++ ".png".toList]⟩)).suffix
      = ".png".toList := by
  have hgood : ∀ q ∈ ps ++ [y ++ ".png".toList], GoodPart q := by
    intro q hq
    rcases List.mem_append.mp hq with h | h
    · exact hps q h
    · rw [List.mem_singleton.mp h]
      refine ⟨by simp, ?_, ?_⟩
      · intro hc
        have hl := congrArg List.length hc
        simp [List.length_append] at hl
      · intro hc
        rcases List.mem_append.mp hc with h1 | h1
        · exact hsl h1
        · simp at h1
  rw [parsePath_str hgood]
  simp only [PurePath.suffix, PurePath.name, List.getLast?_concat, Option.getD_some]
  exact nameSuffix_concat_png hy

theorem dropLast_parts_good {s : String} :
    ∀ q ∈ (parsePath s).parts.dropLast, GoodPart q :=
  fun q hq => parsePath_parts_good s q ((List.dropLast_sublist _).mem hq)

theorem lowerStr_png : lowerStr (".png".toList) = ".png".toList := by decide

/-- Whenever output resolution succeeds, the produced path string has a
suffix that lowercases to exactly `.png`. -/
theorem resolveOutput_ok_suffix {inp : String} {out : Option String} {p : String}
    (h : resolveOutput inp out = .ok p) :
    lowerStr (parsePath p).suffix = ".png".toList := by
  cases out with
  | none =>
    rw [resolveOutput_none inp] at h
    injection h with h
    subst h
    have hpng : ((parsePath inp).stem ++ "_nobg.png".toList)
        = ((parsePath inp).stem ++ "_nobg".toList) ++ ".png".toList := by
      rw [List.append_assoc]
      rfl
    rw [hpng, suffix_of_built_path dropLast_parts_good (by simp) ?_]
    · exact lowerStr_png
    · intro hmem
      rcases List.mem_append.mp hmem with h1 | h1
      · exact nameStem_no_slash (name_no_slash (parsePath_parts_good inp)) h1
      · simp at h1
  | some op =>
    have hgood := parsePath_parts_good op
    simp only [resolveOutput] at h
    split at h
    · next hcond =>
      injection h with h
      subst h
      exact hcond
    · simp only [withSuffixPng] at h
      split at h
      · simp [Except.map] at h
      · next hn =>
        split at h
        · simp only [Except.map] at h
          injection h with h
          subst h
          rw [suffix_of_built_path dropLast_parts_good hn (name_no_slash hgood)]
          exact lowerStr_png
        · next hs =>
          simp only [Except.map] at h
          injection h with h
          subst h
          rw [suffix_of_built_path dropLast_parts_good (nameStem_ne_nil hs)
            (nameStem_no_slash (name_no_slash hgood))]
          exact lowerStr_png

/-! ## Shape of remove_background results -/

/-- Every result of `remove_background` is either a success coming from a
successful pipeline on a validated input with the resolved output path, or a
`FileNotFoundError`, or a `ValueError`. -/
theorem remove_background_cases (fs : FileSystem) (proc : ProcOutcome)
    (inp : String) (out : Option String) :
    (∃ p, (remove_background fs proc inp out).result = .ok p ∧
      resolveOutput inp out = .ok p ∧ proc = .success) ∨
    (∃ m, (remove_background fs proc inp out).result
      = .error (.fileNotFoundError m)) ∨
    (∃ m, (remove_background fs proc inp out).result
      = .error (.valueError m)) := by
  unfold remove_background
  split
  · right; left; exact ⟨_, rfl⟩
  · split
    · right; right; exact ⟨_, rfl⟩
    · split
      · right; right; exact ⟨_, rfl⟩
      · next q heq =>
        cases proc with
        | readFail e => right; right; exact ⟨_, rfl⟩
        | removeFail e => right; right; exact ⟨_, rfl⟩
        | decodeFail e => right; right; exact ⟨_, rfl⟩
        | saveFail e => right; right; exact ⟨_, rfl⟩
        | success => left; exact ⟨q, rfl, heq, rfl⟩

/-! ## Concrete demonstration filesystems -/

/-- A demo filesystem: a regular file at `photo.jpg` and a directory at
`somedir`. -/
def fsDemo : FileSystem :=
  ⟨fun p =>
    if p = parsePath ("photo.jpg") then some .file
    else if p = parsePath ("somedir") then some .dir
    else none⟩

/-- A second demo filesystem, differing from `fsDemo` except on the demo
input, for the determinism claim. -/
def fsDemo2 : FileSystem :=
  ⟨fun p =>
    if p = parsePath ("photo.jpg") then some .file
    else if p = parsePath ("extra.png") then some .file
    else none⟩

/-- The empty filesystem: no path exists. -/
def fsEmpty : FileSystem := ⟨fun _ => none⟩

/-! ## Claims -/

/-- Claim C1, counterexample to the claim as stated.  The claim says every
successful run returns an output path whose suffix is exactly the lowercase
string `.png`, even for caller-supplied paths such as `out.PNG`.  In fact a
caller-supplied path ending in `.PNG` is passed through unchanged, so the
run succeeds and returns a path whose suffix is `.PNG`, not `.png`. -/
theorem c1_counterexample :
    (remove_background fsDemo .success ("photo.jpg") (some ("out.PNG"))).result
      = .ok ("out.PNG") ∧
    (parsePath ("out.PNG")).suffix ≠ ".png".toList :=
  ⟨rfl, by decide⟩

/-- Claim C1 as amended: for every successful run of `remove_background`, the
returned output path's suffix equals `.png` up to ASCII case — lowercasing
the suffix yields exactly `.png` — regardless of what output path the caller
requested. -/
theorem c1_amended_suffix_png (fs : FileSystem) (proc : ProcOutcome)
    (inp : String) (out : Option String) (p : String)
    (h : (remove_background fs proc inp out).result = .ok p) :
    lowerStr (parsePath p).suffix = ".png".toList := by
  rcases remove_background_cases fs proc inp out with
    ⟨q, hq, hres, _⟩ | ⟨m, hm⟩ | ⟨m, hm⟩
  · rw [h] at hq
    injection hq with hq
    exact hq ▸ resolveOutput_ok_suffix hres
  · rw [h] at hm
    simp at hm
  · rw [h] at hm
    simp at hm

/-- Witness for the amended C1 at a concrete run. -/
theorem c1_amended_suffix_png_witness :
    (remove_background fsDemo .success ("photo.jpg") (some ("out.PNG"))).result
      = .ok ("out.PNG") ∧
    lowerStr (parsePath ("out.PNG")).suffix = ".png".toList :=
  ⟨rfl, c1_amended_suffix_png fsDemo .success ("photo.jpg") (some ("out.PNG"))
    "out.PNG" rfl⟩

/-- Claim C2: the CLI exit code is the `mainExitCode` mapping applied to the
outcome of `remove_background`, and that mapping sends success to 0,
`FileNotFoundError` to 1, `ValueError` to 2 and any other exception to 3. -/
theorem c2_exit_code_contract (fs : FileSystem) (proc : ProcOutcome)
    (inp : String) (out : Option String) (p m1 m2 m3 : String) :
    cliMain fs proc inp out
        = mainExitCode (remove_background fs proc inp out).result ∧
    mainExitCode (.ok p) = 0 ∧
    mainExitCode (.error (.fileNotFoundError m1)) = 1 ∧
    mainExitCode (.error (.valueError m2)) = 2 ∧
    mainExitCode (.error (.other m3)) = 3 :=
  ⟨rfl, rfl, rfl, rfl, rfl⟩

/-- Claim C3: a nonexistent input path gives the `FileNotFoundError` with the
not-found message, no file-handle effects at all (in particular no output is
written), and CLI exit code 1. -/
theorem c3_missing_input (fs : FileSystem) (proc : ProcOutcome) (inp : String)
    (out : Option String) (h : fs.lookup (parsePath inp) = none) :
    (remove_background fs proc inp out).result
      = .error (.fileNotFoundError ("Input file not found: " ++ inp)) ∧
    (remove_background fs proc inp out).effects = [] ∧
    cliMain fs proc inp out = 1 := by
  have h1 : (fs.lookup (parsePath inp)).isNone = true := by rw [h]; rfl
  unfold cliMain remove_background
  rw [if_pos h1]
  exact ⟨rfl, rfl, rfl⟩

/-- Witness for C3 on the empty filesystem. -/
theorem c3_missing_input_witness :
    (remove_background fsEmpty .success ("missing.jpg") none).result
      = .error (.fileNotFoundError ("Input file not found: missing.jpg")) ∧
    (remove_background fsEmpty .success ("missing.jpg") none).effects = [] ∧
    cliMain fsEmpty .success ("missing.jpg") none = 1 :=
  c3_missing_input fsEmpty .success ("missing.jpg") none rfl

/-- Claim C4: an input path that exists but is not a regular file gives the
`ValueError` with the not-a-file message and CLI exit code 2. -/
theorem c4_not_a_file (fs : FileSystem) (proc : ProcOutcome) (inp : String)
    (out : Option String) (e : Entry) (he : fs.lookup (parsePath inp) = some e)
    (hne : e ≠ .file) :
    (remove_background fs proc inp out).result
      = .error (.valueError ("Input path is not a file: " ++ inp)) ∧
    cliMain fs proc inp out = 2 := by
  have h1 : ¬ (fs.lookup (parsePath inp)).isNone = true := by rw [he]; simp
  have h2 : fs.lookup (parsePath inp) ≠ some Entry.file := by
    rw [he]
    intro hc
    injection hc with hc
    exact hne hc
  unfold cliMain remove_background
  rw [if_neg h1, if_pos h2]
  exact ⟨rfl, rfl⟩

/-- Witness for C4 on a directory input. -/
theorem c4_not_a_file_witness :
    fsDemo.lookup (parsePath ("somedir")) = some Entry.dir ∧
    (remove_background fsDemo .success ("somedir") none).result
      = .error (.valueError ("Input path is not a file: somedir")) ∧
    cliMain fsDemo .success ("somedir") none = 2 := by
  have h := c4_not_a_file fsDemo .success ("somedir") none Entry.dir rfl
    (by decide)
  exact ⟨rfl, h.1, h.2⟩

/-- Claim C5: for an existing regular-file input with no caller-supplied
output path, the successful run returns the path printed from the input's
parent directory components followed by the filename
`<input-stem>_nobg.png`. -/
theorem c5_default_output (fs : FileSystem) (inp : String)
    (hf : fs.lookup (parsePath inp) = some .file) :
    (remove_background fs .success inp none).result
      = .ok (PurePath.str
        { absolute := (parsePath inp).absolute,
          parts := (parsePath inp).parts.dropLast
            ++ [(parsePath inp).stem ++ "_nobg.png".toList] }) := by
  have h1 : ¬ (fs.lookup (parsePath inp)).isNone = true := by rw [hf]; simp
  have h2 : ¬ fs.lookup (parsePath inp) ≠ some Entry.file := by rw [hf]; simp
  unfold remove_background
  rw [if_neg h1, if_neg h2, resolveOutput_none inp]

/-- Witness for C5: `photo.jpg` resolves to `photo_nobg.png` beside it. -/
theorem c5_default_output_witness :
    fsDemo.lookup (parsePath ("photo.jpg")) = some Entry.file ∧
    (remove_background fsDemo .success ("photo.jpg") none).result
      = .ok ("photo_nobg.png") := by
  refine ⟨rfl, ?_⟩
  rw [c5_default_output fsDemo ("photo.jpg") rfl]
  rfl

/-- Claim C6, counterexample to the claim as stated.  The claim says every
caller-supplied output path not already ending in `.png` has its suffix
replaced with `.png`.  But for an output path whose final component is
empty — such as `"."` — `pathlib`'s `with_suffix` raises `ValueError`
instead, so no output path is produced at all and `remove_background`
fails even on a perfectly valid input file. -/
theorem c6_counterexample :
    resolveOutput ("photo.jpg") (some ("."))
        = .error ("PurePosixPath('.') has an empty name") ∧
    (remove_background fsDemo .success ("photo.jpg") (some ("."))).result
      = .error (.valueError ("PurePosixPath('.') has an empty name")) :=
  ⟨rfl, rfl⟩

/-- Claim C6 as amended: for every caller-supplied output path whose final
component is non-empty, the path is passed through unchanged when its
suffix already lowercases to `.png`, and otherwise its final suffix is
replaced by `.png` (appended when the path has no suffix at all); when the
final component is empty (as for `"."` or `"/"`), resolution instead raises
the `pathlib` `ValueError` about the empty name. -/
theorem c6_amended_output_normalization (inp op : String) :
    ((parsePath op).parts ≠ [] →
      (lowerStr (parsePath op).suffix = ".png".toList →
        resolveOutput inp (some op) = .ok op) ∧
      (lowerStr (parsePath op).suffix ≠ ".png".toList →
        resolveOutput inp (some op) = .ok (PurePath.str
          { absolute := (parsePath op).absolute,
            parts := (parsePath op).parts.dropLast
              ++ [(if (parsePath op).suffix = [] then (parsePath op).name
                   else (parsePath op).stem) ++ ".png".toList] }))) ∧
    ((parsePath op).parts = [] ∧ lowerStr (parsePath op).suffix ≠ ".png".toList →
      resolveOutput inp (some op)
        = .error ("PurePosixPath('" ++ (parsePath op).str
            ++ "') has an empty name")) := by
  constructor
  · intro hne
    constructor
    · intro hcond
      simp only [resolveOutput, if_pos hcond]
    · intro hcond
      have hname : (parsePath op).name ≠ [] :=
        fun hc => hne ((name_nil_iff (parsePath_parts_good op)).mp hc)
      simp only [resolveOutput, if_neg hcond, withSuffixPng, if_neg hname]
      by_cases hsuf : nameSuffix (parsePath op).name = []
      · rw [if_pos hsuf]
        simp only [Except.map]
        rw [if_pos (show (parsePath op).suffix = [] from hsuf)]
      · rw [if_neg hsuf]
        simp only [Except.map]
        rw [if_neg (show ¬ (parsePath op).suffix = [] from hsuf)]
        rfl
  · rintro ⟨hnil, hcond⟩
    have hname : (parsePath op).name = [] :=
      (name_nil_iff (parsePath_parts_good op)).mpr hnil
    simp only [resolveOutput, if_neg hcond, withSuffixPng, if_pos hname,
      Except.map]

/-- Witness for the amended C6: a pass-through `.PNG` path, a replaced
`.txt` path, and the empty-name error case. -/
theorem c6_amended_output_normalization_witness :
    (parsePath ("res.PNG")).parts ≠ [] ∧
    lowerStr (parsePath ("res.PNG")).suffix = ".png".toList ∧
    resolveOutput ("photo.jpg") (some ("res.PNG")) = .ok ("res.PNG") ∧
    (parsePath ("res.txt")).parts ≠ [] ∧
    lowerStr (parsePath ("res.txt")).suffix ≠ ".png".toList ∧
    resolveOutput ("photo.jpg") (some ("res.txt")) = .ok ("res.png") ∧
    (parsePath (".")).parts = [] ∧
    resolveOutput ("photo.jpg") (some ("."))
      = .error ("PurePosixPath('.') has an empty name") := by
  refine ⟨by decide, by decide, ?_, by decide, by decide, ?_, by decide, ?_⟩
  · exact ((c6_amended_output_normalization ("photo.jpg") "res.PNG").1
      (by decide)).1 (by decide)
  · rw [((c6_amended_output_normalization ("photo.jpg") "res.txt").1
      (by decide)).2 (by decide)]
    rfl
  · exact (c6_amended_output_normalization ("photo.jpg") ".").2
      ⟨by decide, by decide⟩

/-- Claim C7: once validation and output resolution have passed, any failure
in the read/remove/decode/save pipeline is re-raised as `ValueError` with
message `"Failed to process image: " ++ str(e)` — so the underlying cause's
message is embedded as a suffix of the raised message — and the CLI reports
exit code 2. -/
theorem c7_processing_failure_wrapped (fs : FileSystem) (proc : ProcOutcome)
    (inp q : String) (out : Option String) (e : PyExc)
    (hf : fs.lookup (parsePath inp) = some .file)
    (hr : resolveOutput inp out = .ok q)
    (hp : proc.failure = some e) :
    (remove_background fs proc inp out).result
      = .error (.valueError ("Failed to process image: " ++ e.msgOf)) ∧
    List.IsSuffix e.msgOf.toList
      ("Failed to process image: " ++ e.msgOf).toList ∧
    cliMain fs proc inp out = 2 := by
  have h1 : ¬ (fs.lookup (parsePath inp)).isNone = true := by rw [hf]; simp
  have h2 : ¬ fs.lookup (parsePath inp) ≠ some Entry.file := by rw [hf]; simp
  have hmain : (remove_background fs proc inp out).result
      = .error (.valueError ("Failed to process image: " ++ e.msgOf)) := by
    unfold remove_background
    rw [if_neg h1, if_neg h2, hr]
    cases proc with
    | success => simp [ProcOutcome.failure] at hp
    | readFail f =>
      simp only [ProcOutcome.failure, Option.some.injEq] at hp
      rw [hp]
    | removeFail f =>
      simp only [ProcOutcome.failure, Option.some.injEq] at hp
      rw [hp]
    | decodeFail f =>
      simp only [ProcOutcome.failure, Option.some.injEq] at hp
      rw [hp]
    | saveFail f =>
      simp only [ProcOutcome.failure, Option.some.injEq] at hp
      rw [hp]
  refine ⟨hmain,
    ⟨"Failed to process image: ".toList, (String.data_append _ _).symm⟩, ?_⟩
  unfold cliMain
  rw [hmain]
  rfl

/-- Witness for C7: the external collaborator failing on `photo.jpg`. -/
theorem c7_processing_failure_wrapped_witness :
    fsDemo.lookup (parsePath ("photo.jpg")) = some Entry.file ∧
    resolveOutput ("photo.jpg") none = .ok ("photo_nobg.png") ∧
    (ProcOutcome.removeFail (.other ("boom"))).failure = some (.other ("boom")) ∧
    (remove_background fsDemo (.removeFail (.other ("boom")))
        "photo.jpg" none).result
      = .error (.valueError ("Failed to process image: boom")) ∧
    cliMain fsDemo (.removeFail (.other ("boom"))) "photo.jpg" none = 2 := by
  have h := c7_processing_failure_wrapped fsDemo (.removeFail (.other ("boom")))
    "photo.jpg" "photo_nobg.png" none (.other ("boom")) rfl rfl rfl
  exact ⟨rfl, rfl, rfl, h.1, h.2.2⟩

/-- Claim C8: the function `remove_background` never produces an exception other than
`FileNotFoundError` or `ValueError` — every pipeline exception, including a
`FileNotFoundError` from the input disappearing between validation and
open, is wrapped into `ValueError` — so the CLI's unexpected-error exit
code 3 is unreachable through `remove_background`. -/
theorem c8_exit3_unreachable (fs : FileSystem) (proc : ProcOutcome)
    (inp : String) (out : Option String) (m : String) :
    (remove_background fs proc inp out).result ≠ .error (.other m) ∧
    cliMain fs proc inp out ≠ 3 := by
  rcases remove_background_cases fs proc inp out with
    ⟨p, hp, _, _⟩ | ⟨m', hp⟩ | ⟨m', hp⟩ <;>
    refine ⟨by rw [hp]; simp, ?_⟩ <;>
    · unfold cliMain
      rw [hp]
      simp [mainExitCode]

/-- Claim C9: when validation fails — the input path does not point at an
existing regular file — `remove_background` performs no file-handle effect
at all: nothing is opened for reading or writing, so no output file is
created. -/
theorem c9_validation_failure_no_effects (fs : FileSystem) (proc : ProcOutcome)
    (inp : String) (out : Option String)
    (h : fs.lookup (parsePath inp) ≠ some .file) :
    (remove_background fs proc inp out).effects = [] := by
  unfold remove_background
  rcases hl : fs.lookup (parsePath inp) with _ | e
  · rw [if_pos (show (none : Option Entry).isNone = true from rfl)]
  · rw [if_neg (show ¬ (some e : Option Entry).isNone = true by simp),
      if_pos (hl ▸ h)]

/-- Witness for C9 on a directory input. -/
theorem c9_validation_failure_no_effects_witness :
    fsDemo.lookup (parsePath ("somedir")) ≠ some Entry.file ∧
    (remove_background fsDemo .success ("somedir") none).effects = [] :=
  ⟨by decide,
    c9_validation_failure_no_effects fsDemo .success ("somedir") none (by decide)⟩

/-- Claim C10: the resolved output path is a pure function of the two argument
strings — two successful runs with the same `(input_path, output_path)`
arguments under any filesystems and any pipeline behaviours return the same
output path. -/
theorem c10_output_path_deterministic (fs fs' : FileSystem)
    (proc proc' : ProcOutcome) (inp : String) (out : Option String)
    (p p' : String)
    (h : (remove_background fs proc inp out).result = .ok p)
    (h' : (remove_background fs' proc' inp out).result = .ok p') : p = p' := by
  rcases remove_background_cases fs proc inp out with
    ⟨q, hq, hres, _⟩ | ⟨m, hm⟩ | ⟨m, hm⟩
  · rcases remove_background_cases fs' proc' inp out with
      ⟨q', hq', hres', _⟩ | ⟨m, hm⟩ | ⟨m, hm⟩
    · rw [h] at hq
      rw [h'] at hq'
      injection hq with hq
      injection hq' with hq'
      rw [hres] at hres'
      injection hres' with hres'
      rw [← hq, ← hq'] at hres'
      exact hres'
    · rw [h'] at hm
      simp at hm
    · rw [h'] at hm
      simp at hm
  · rw [h] at hm
    simp at hm
  · rw [h] at hm
    simp at hm

/-- Witness for C10: two different filesystems, same arguments, same output
path. -/
theorem c10_output_path_deterministic_witness :
    (remove_background fsDemo .success ("photo.jpg") none).result
      = .ok ("photo_nobg.png") ∧
    (remove_background fsDemo2 .success ("photo.jpg") none).result
      = .ok ("photo_nobg.png") ∧
    ("photo_nobg.png" : String) = "photo_nobg.png" :=
  ⟨rfl, rfl, c10_output_path_deterministic fsDemo fsDemo2 .success .success
    "photo.jpg" none ("photo_nobg.png") "photo_nobg.png" rfl rfl⟩
